import Mathlib

/-!
Verification development for the event-fetcher repository.

The definitions below are a shallow embedding of the Go sources:
  - eventsdb/abi.go        (canonical ABI type resolution and signatures)
  - eventsdb/processor.go  (processBlockRange, storeEvent, storeCursor)
  - eventsdb/service.go    (IndexerService.Start, calculateStartingBlock,
                            startContinuousMonitoring)
  - the component-aware decoder decodeParameterWithComponents

Machine bytes are modelled as natural numbers below 256, hashes and topics as
lists of 32 bytes, addresses as lists of 20 bytes.  Collaborator behaviour that
the Go code relies on is modelled explicitly: the keccak-256 permutation (used
by go-ethereum for EIP-55 checksummed address rendering) is implemented in
full, database rows are association lists, a storage transaction is a snapshot
that is published on commit and discarded on rollback or error, and the RPC
endpoint is an oracle supplying one reply per attempted call.
-/

namespace EventFetcher

/-! ## Byte and hex helpers -/

/-- Lowercase hexadecimal digit for a value below 16. -/
def hexDigitChar (n : Nat) : Char :=
  if n < 10 then Char.ofNat (48 + n) else Char.ofNat (87 + n)

/-- Two lowercase hex characters of one byte. -/
def byteHexChars (b : Nat) : List Char :=
  [hexDigitChar (b / 16), hexDigitChar (b % 16)]

/-- Lowercase hex characters of a byte sequence. -/
def bytesHexChars (bs : List Nat) : List Char :=
  (bs.map byteHexChars).flatten

/-- Lowercase hex string of a byte sequence, as produced by a Go
fmt.Sprintf percent-x verb (no 0x in front). -/
def bytesHex (bs : List Nat) : String :=
  ⟨bytesHexChars bs⟩

/-- Hex rendering of a 32-byte hash as go-ethereum common.Hash.Hex returns it:
0x followed by 64 lowercase hex characters. -/
def topicHex (t : List Nat) : String :=
  "0x" ++ bytesHex t

/-- Big-endian unsigned interpretation of a byte sequence, the behaviour of
big.Int.SetBytes in the Go standard library. -/
def beBytesNat (bs : List Nat) : Nat :=
  bs.foldl (fun acc b => acc * 256 + b) 0

/-- Go string built from raw bytes, as in a Go string conversion of a byte
slice.  Each byte becomes the character with that code point; this is exact
for ASCII content, which is all the proofs below instantiate it with. -/
def goStringOfBytes (bs : List Nat) : String :=
  ⟨bs.map Char.ofNat⟩

/-! ## Keccak-256

A complete implementation of the legacy Keccak-256 digest used by
golang.org/x/crypto/sha3.NewLegacyKeccak256 and by go-ethereum for event
signature hashing and EIP-55 address checksums. -/

/-- Two to the sixty-fourth power, the lane modulus of keccak-f[1600]. -/
def lane64 : Nat := 18446744073709551616

/-- Left rotation of a 64-bit lane. -/
def rotl64 (x n : Nat) : Nat :=
  ((x <<< n) ||| (x >>> (64 - n))) % lane64

/-- Round constants of keccak-f[1600], written in decimal, three per line. -/
def keccakRC : List Nat :=
  [1, 32898, 9223372036854808714,
   9223372039002292224, 32907, 2147483649,
   9223372039002292353, 9223372036854808585, 138,
   136, 2147516425, 2147483658,
   2147516555, 9223372036854775947, 9223372036854808713,
   9223372036854808579, 9223372036854808578, 9223372036854775936,
   32778, 9223372039002259466, 9223372039002292353,
   9223372036854808704, 2147483649, 9223372039002292232]

/-- Rotation offsets of the rho step, indexed by lane x + 5 y, one row of the
state per bracketed group. -/
def keccakRho : List Nat :=
  [0, 1, 62, 28, 27] ++ [36, 44, 6, 55, 20] ++ [3, 10, 43, 25, 39] ++
    [41, 45, 15, 21, 8] ++ [18, 2, 61, 56, 14]

/-- One round of keccak-f[1600] on a state of 25 lanes. -/
def keccakRound (a : List Nat) (rc : Nat) : List Nat :=
  let c := fun x => a.getD x 0 ^^^ a.getD (x + 5) 0 ^^^ a.getD (x + 10) 0 ^^^
                    a.getD (x + 15) 0 ^^^ a.getD (x + 20) 0
  let d := (List.range 5).map fun x => c ((x + 4) % 5) ^^^ rotl64 (c ((x + 1) % 5)) 1
  let a1 := (List.range 25).map fun i => a.getD i 0 ^^^ d.getD (i % 5) 0
  let b := (List.range 25).map fun i =>
    let bx := i % 5
    let by2 := i / 5
    let src := (bx + 3 * by2) % 5 + 5 * bx
    rotl64 (a1.getD src 0) (keccakRho.getD src 0)
  let chi := (List.range 25).map fun i =>
    let x := i % 5
    let y := i / 5
    b.getD i 0 ^^^ ((0xFFFFFFFFFFFFFFFF ^^^ b.getD ((x + 1) % 5 + 5 * y) 0) &&&
                    b.getD ((x + 2) % 5 + 5 * y) 0)
  chi.set 0 (chi.getD 0 0 ^^^ rc)

/-- The full 24-round keccak-f[1600] permutation. -/
def keccakF (a : List Nat) : List Nat :=
  keccakRC.foldl keccakRound a

/-- Little-endian 64-bit lane from up to eight bytes. -/
def leLane (bs : List Nat) : Nat :=
  bs.foldr (fun b acc => acc * 256 + b) 0

/-- Absorb one 136-byte rate block into the state and permute. -/
def keccakAbsorbBlock (st : List Nat) (block : List Nat) : List Nat :=
  keccakF ((List.range 25).map fun i =>
    if i < 17 then st.getD i 0 ^^^ leLane ((block.drop (8 * i)).take 8)
    else st.getD i 0)

/-- Legacy Keccak padding: a 0x01 byte, zeros, and a final 0x80 byte, for a
rate of 136 bytes. -/
def keccakPad (msg : List Nat) : List Nat :=
  let padLen := 136 - msg.length % 136
  if padLen == 1 then msg ++ [0x81]
  else msg ++ (0x01 :: List.replicate (padLen - 2) 0) ++ [0x80]

/-- Absorb a padded message, 136 bytes at a time. -/
def keccakAbsorbAll (st : List Nat) (msg : List Nat) : List Nat :=
  match msg with
  | [] => st
  | b :: rest =>
    keccakAbsorbAll (keccakAbsorbBlock st ((b :: rest).take 136)) ((b :: rest).drop 136)
termination_by msg.length
decreasing_by
  simp only [List.length_drop, List.length_cons]
  omega

/-- Little-endian bytes of one 64-bit lane. -/
def laneLEBytes (x : Nat) : List Nat :=
  (List.range 8).map fun i => (x >>> (8 * i)) % 256

/-- Keccak-256 digest (32 bytes) of a byte sequence. -/
def keccak256 (msg : List Nat) : List Nat :=
  let st := keccakAbsorbAll (List.replicate 25 0) (keccakPad msg)
  ((List.range 4).map fun i => laneLEBytes (st.getD i 0)).flatten

/-- Keccak256Hash from abi.go: the 0x-prefixed lowercase hex keccak-256 digest
of the UTF-8 bytes of a string. -/
def Keccak256Hash (text : String) : String :=
  "0x" ++ bytesHex (keccak256 (text.data.map Char.toNat))

/-! ## EIP-55 checksummed address rendering

go-ethereum common.Address.Hex: hex characters of the 20 address bytes, a
letter being uppercased exactly when the corresponding nibble of the keccak-256
digest of the lowercase hex string is above 7. -/

/-- Uppercase a lowercase hex letter when the checksum nibble is above 7. -/
def checksumChar (c : Char) (nib : Nat) : Char :=
  if 57 < c.toNat ∧ 7 < nib then Char.ofNat (c.toNat - 32) else c

/-- EIP-55 checksummed rendering of a 20-byte address, with 0x in front. -/
def addressEIP55Hex (addr : List Nat) : String :=
  let hexChars := bytesHexChars addr
  let sha := keccak256 (hexChars.map Char.toNat)
  let cs := (List.range hexChars.length).map fun j =>
    let hb := sha.getD (j / 2) 0
    let nib := if j % 2 == 0 then hb >>> 4 else hb &&& 15
    checksumChar (hexChars.getD j 'x') nib
  ⟨'0' :: 'x' :: cs⟩

/-- go-ethereum common.HexToAddress applied to a 32-byte topic hash: the hex
string is parsed back to bytes and cropped from the left to 20 bytes. -/
def hexToAddressOfTopic (t : List Nat) : List Nat :=
  t.drop (t.length - 20)

/-! ## ABI input descriptions and canonical type resolution (abi.go) -/

/-- ABIInput from abi.go: one parameter description of an ABI event, with the
declared type string and, for tuples, the component descriptions. -/
inductive ABIInput where
  | mk (name : String) (type : String) (indexed : Bool)
       (components : List ABIInput) (internalType : String)

/-- Declared parameter name. -/
def ABIInput.name : ABIInput → String
  | .mk n _ _ _ _ => n

/-- Declared type string, such as uint256 or tuple or tuple[][]. -/
def ABIInput.type : ABIInput → String
  | .mk _ t _ _ _ => t

/-- Whether the parameter is declared indexed. -/
def ABIInput.indexed : ABIInput → Bool
  | .mk _ _ ix _ _ => ix

/-- Component descriptions of a tuple-typed parameter. -/
def ABIInput.components : ABIInput → List ABIInput
  | .mk _ _ _ cs _ => cs

/-- ABIEvent from abi.go: one parsed ABI event entry. -/
structure ABIEvent where
  name : String
  type : String
  anonymous : Bool
  inputs : List ABIInput

/-- The loop from ResolveType that repeatedly strips a trailing pair of
square-bracket characters, on the reversed character list of the type string.
Returns the remaining reversed characters and the number of pairs stripped. -/
def stripArrayMarkersRev : List Char → List Char × Nat
  | ']' :: '[' :: rest =>
    let p := stripArrayMarkersRev rest
    (p.1, p.2 + 1)
  | cs => (cs, 0)

/-- The arraySuffix accumulator of ResolveType: one array marker appended per
stripped pair. -/
def arraySuffixOf : Nat → String
  | 0 => ""
  | k + 1 => arraySuffixOf k ++ "[]"

/-- Base type and re-joined array suffix of a declared type string, exactly as
the HasSuffix loop of ResolveType computes them: the base is the string with
every trailing array marker removed, the suffix is one array marker per
stripped pair. -/
def baseAndSuffix (t : String) : String × String :=
  let p := stripArrayMarkersRev t.data.reverse
  (⟨p.1.reverse⟩, arraySuffixOf p.2)

mutual

/-- ResolveType from abi.go: canonical Solidity type token of one input.
Trailing array markers are stripped; a tuple base resolves to the
parenthesised comma-joined canonical component types with the markers
re-appended; any other base returns the declared type string unchanged. -/
def ResolveType (input : ABIInput) : String :=
  let p := baseAndSuffix input.type
  if p.1 = "tuple" then
    "(" ++ String.intercalate "," (resolveTypeList input.components) ++ ")" ++ p.2
  else input.type
termination_by sizeOf input
decreasing_by
  cases input with
  | mk n t ix cs it => simp [ABIInput.components]; omega

/-- Canonical types of a component list, one ResolveType call per entry, as
the loop in the tuple branch of ResolveType produces them. -/
def resolveTypeList : List ABIInput → List String
  | [] => []
  | c :: cs => ResolveType c :: resolveTypeList cs
termination_by l => sizeOf l
decreasing_by
  all_goals (simp; try omega)

end

/-- The component loop is a map of ResolveType over the components. -/
theorem resolveTypeList_eq_map (l : List ABIInput) :
    resolveTypeList l = l.map ResolveType := by
  induction l with
  | nil => rw [resolveTypeList, List.map_nil]
  | cons c cs ih => rw [resolveTypeList, ih, List.map_cons]

/-- BuildEventSignature from abi.go: the canonical event signature string,
name followed by the parenthesised comma-joined canonical input types. -/
def BuildEventSignature (event : ABIEvent) : String :=
  event.name ++ "(" ++ String.intercalate "," (event.inputs.map ResolveType) ++ ")"

/-! ## Dynamic Go values flowing through the decoder

decodeParameterWithComponents receives an interface value and dispatches on
its dynamic type via reflection.  GoValue is the closed set of dynamic types
that can actually reach it from the indexed-topic switch in storeEvent and
from the go-ethereum UnpackValues collaborator: big integers, big floats
(only their rendered string is relevant), 20-byte addresses, booleans,
strings, byte slices, 4- and 32-byte arrays, structs, generic slices, slices
of 4-byte arrays, plus the string-keyed maps and slices the decoder itself
produces. -/
inductive GoValue where
  | bigInt (n : Int)
  | bigFloat (rendered : String)
  | address (bytes : List Nat)
  | boolV (b : Bool)
  | str (s : String)
  | bytes (bs : List Nat)
  | bytes4 (bs : List Nat)
  | bytes32 (bs : List Nat)
  | tuple (fields : List GoValue)
  | arr (elems : List GoValue)
  | bytes4Arr (elems : List (List Nat))
  | strArr (ss : List String)
  | mapSI (entries : List (String × GoValue))
  | mapArr (maps : List (List (String × GoValue)))

/-- A Go map with string keys, modelled as an association list: assignment
overwrites every entry holding the key, otherwise appends.  Insertion order is
the loop order of the writing code; key lookup is what all readers use. -/
def mapInsert (m : List (String × GoValue)) (k : String) (v : GoValue) :
    List (String × GoValue) :=
  if m.any (fun p => p.1 == k) then
    m.map (fun p => if p.1 == k then (k, v) else p)
  else m ++ [(k, v)]

/-- Reading one key of a string-keyed Go map. -/
def lookupParam (m : List (String × GoValue)) (k : String) : Option GoValue :=
  (m.find? (fun p => p.1 == k)).map (fun p => p.2)

mutual

/-- decodeParameterWithComponents: the component-aware value normaliser.
Dispatch follows the source order: a single 4-byte array renders as
0x-prefixed hex; a slice of 4-byte arrays renders as a slice of such strings;
a slice paired with a nonempty component list maps each struct element over
the component names, collapsing a single-element result to the bare map;
otherwise big integers and big floats render as decimal strings, addresses as
EIP-55 hex, byte slices and 32-byte arrays as 0x-prefixed hex, and every
other value is returned unchanged. -/
def decodeParameterWithComponents (v : GoValue) (input : ABIInput) : GoValue :=
  match v with
  | .bytes4 bs => .str ("0x" ++ bytesHex bs)
  | .bytes4Arr elems => .strArr (elems.map (fun e => "0x" ++ bytesHex e))
  | .arr elems =>
    if input.components.isEmpty then .arr elems
    else
      match structArrayLoop elems input.components with
      | [r] => .mapSI r
      | rs => .mapArr rs
  | .bytes bs =>
    if input.components.isEmpty then .str ("0x" ++ bytesHex bs)
    else
      -- a byte slice is still reflect.Slice: with components present the
      -- struct-array path runs, finds no struct elements, and returns the
      -- empty result slice
      .mapArr []
  | .bigInt n => .str (toString n)
  | .bigFloat rendered => .str rendered
  | .address bs => .str (addressEIP55Hex bs)
  | .bytes32 bs => .str ("0x" ++ bytesHex bs)
  | other => other
termination_by sizeOf v + sizeOf input
decreasing_by
  all_goals (cases input with
  | mk n t ix cs it => simp [ABIInput.components]; omega)

/-- The element loop of the struct-array branch: each struct element becomes
one name-to-value map, non-struct elements and elements producing an empty
map are dropped. -/
def structArrayLoop (elems : List GoValue) (comps : List ABIInput) :
    List (List (String × GoValue)) :=
  match elems with
  | [] => []
  | item :: rest =>
    match item with
    | .tuple fields =>
      let m := structFieldsLoop comps fields []
      if m.isEmpty then structArrayLoop rest comps
      else m :: structArrayLoop rest comps
    | _ => structArrayLoop rest comps
termination_by sizeOf elems + sizeOf comps
decreasing_by
  all_goals simp
  all_goals omega

/-- The field loop inside one struct element: the j-th component name is bound
to the recursively decoded j-th struct field, while fields exist. -/
def structFieldsLoop (comps : List ABIInput) (fields : List GoValue)
    (acc : List (String × GoValue)) : List (String × GoValue) :=
  match comps, fields with
  | [], _ => acc
  | _ :: cs, [] => structFieldsLoop cs [] acc
  | c :: cs, f :: ftl =>
    structFieldsLoop cs ftl (mapInsert acc c.name (decodeParameterWithComponents f c))
termination_by sizeOf comps + sizeOf fields
decreasing_by
  all_goals simp
  all_goals omega

end

/-! ## Event signature table and raw logs (abi.go, processor.go) -/

/-- The runtime type tags of go-ethereum abi.Type that the indexed-parameter
switch in storeEvent dispatches on. -/
inductive AbiT where
  | intTy
  | uintTy
  | boolTy
  | stringTy
  | sliceTy
  | arrayTy
  | tupleTy
  | addressTy
  | fixedBytesTy
  | bytesTy
  | hashTy
  | fixedPointTy
  | functionTy
deriving DecidableEq, Repr

/-- One go-ethereum abi.Argument: parameter name, runtime type tag, indexed
flag. -/
structure Argument where
  name : String
  typeT : AbiT
  indexed : Bool
deriving DecidableEq, Repr

/-- EventSignatureInfo from abi.go: one entry of the loaded signature table,
keyed elsewhere by the signature hash. -/
structure EventSignatureInfo where
  name : String
  signature : String
  inputs : List Argument
  originalABI : Option ABIEvent

/-- One raw log as delivered by the RPC client: hashes and topics are 32-byte
values, the contract address 20 bytes, the data blob arbitrary bytes. -/
structure Log where
  txHash : List Nat
  txIndex : Nat
  blockNumber : Nat
  blockHash : List Nat
  index : Nat
  removed : Bool
  address : List Nat
  topics : List (List Nat)
  data : List Nat

/-- One persisted DecodedEvent row (model BlockchainEvent in the source).
The databases own id and insertTime columns are generated by the storage
engine, never written by this code, and are left out of the model.
decodedParams is kept as the map that the code serialises to JSON. -/
structure BlockchainEvent where
  txHash : String
  txIndex : Nat
  blockNumber : Nat
  blockHash : String
  logIndex : Nat
  removed : Bool
  contractAddress : String
  eventSignature : String
  eventName : Option String
  eventFullSignature : Option String
  otherTopics : List String
  rawData : String
  decodedParams : List (String × GoValue)

/-- The indexed-topic switch of storeEvent: decode one 32-byte topic per the
declared runtime type tag.  Addresses crop the topic to its last 20 bytes;
integers parse the topic big-endian and unsigned via big.Int.SetBytes;
booleans test the last byte against 1; strings reinterpret the raw bytes as a
Go string; fixed bytes and bytes render the bytes as plain hex through a
Sprintf percent-x verb; every other tag keeps the raw byte slice. -/
def decodeIndexedTopicValue (t : AbiT) (topic : List Nat) : GoValue :=
  match t with
  | .addressTy => .address (hexToAddressOfTopic topic)
  | .intTy => .bigInt (beBytesNat topic)
  | .uintTy => .bigInt (beBytesNat topic)
  | .boolTy => .boolV (topic.getD 31 0 == 1)
  | .stringTy => .str (goStringOfBytes topic)
  | .fixedBytesTy => .str (bytesHex topic)
  | .bytesTy => .str (bytesHex topic)
  | _ => .bytes topic

/-- The four partitions the input-separation loop of storeEvent builds: the
indexed and non-indexed subsequences of the parsed inputs, each with the
parallel subsequence of the original ABI input metadata.  The original list is
walked by the same index, entries past its end are dropped, exactly as the
bounds check in the loop does. -/
structure SplitInputs where
  indexed : List Argument
  origIndexed : List ABIInput
  nonIndexed : List Argument
  origNonIndexed : List ABIInput

/-- The input-separation loop of storeEvent. -/
def splitInputs : List Argument → List ABIInput → SplitInputs
  | [], _ => ⟨[], [], [], []⟩
  | a :: as2, [] =>
    let r := splitInputs as2 []
    if a.indexed then ⟨a :: r.indexed, r.origIndexed, r.nonIndexed, r.origNonIndexed⟩
    else ⟨r.indexed, r.origIndexed, a :: r.nonIndexed, r.origNonIndexed⟩
  | a :: as2, o :: os =>
    let r := splitInputs as2 os
    if a.indexed then ⟨a :: r.indexed, o :: r.origIndexed, r.nonIndexed, r.origNonIndexed⟩
    else ⟨r.indexed, r.origIndexed, a :: r.nonIndexed, o :: r.origNonIndexed⟩

/-- The indexed-parameter loop of storeEvent.  The i-th indexed input reads
topic i+1, so the loop walks the topic list with its first element dropped;
an input with no remaining topic is skipped.  The decoded value passes
through decodeParameterWithComponents when original metadata at the same
index exists, and is stored raw otherwise. -/
def decodeIndexedLoop : List Argument → List ABIInput → List (List Nat) →
    List (String × GoValue) → List (String × GoValue)
  | [], _, _, params => params
  | _ :: as2, origs, [], params => decodeIndexedLoop as2 (origs.drop 1) [] params
  | a :: as2, origs, t :: ts, params =>
    let v := decodeIndexedTopicValue a.typeT t
    let rendered := match origs with
      | o :: _ => decodeParameterWithComponents v o
      | [] => v
    decodeIndexedLoop as2 (origs.drop 1) ts (mapInsert params a.name rendered)

/-- The non-indexed parameter loop of storeEvent: the i-th non-indexed input
takes the i-th unpacked value while values remain, again normalised through
decodeParameterWithComponents when original metadata exists. -/
def decodeDataLoop : List Argument → List ABIInput → List GoValue →
    List (String × GoValue) → List (String × GoValue)
  | [], _, _, params => params
  | _ :: as2, origs, [], params => decodeDataLoop as2 (origs.drop 1) [] params
  | a :: as2, origs, v :: vs, params =>
    let rendered := match origs with
      | o :: _ => decodeParameterWithComponents v o
      | [] => v
    decodeDataLoop as2 (origs.drop 1) vs (mapInsert params a.name rendered)

/-- The data-blob branch of storeEvent: when the log carries data and
non-indexed inputs exist, the blob is unpacked by the go-ethereum ABI decoder
(a collaborator, passed here as the function unpack); a decode error leaves
every affected parameter absent. -/
def decodeNonIndexed (unpack : List Argument → List Nat → Option (List GoValue))
    (nonIdx : List Argument) (origs : List ABIInput) (data : List Nat)
    (params : List (String × GoValue)) : List (String × GoValue) :=
  if 0 < data.length ∧ 0 < nonIdx.length then
    match unpack nonIdx data with
    | none => params
    | some vs => decodeDataLoop nonIdx origs vs params
  else params

/-- The signature lookup of processBlockRange: topic 0, rendered as hex, is
looked up in the loaded signature table; a log without topics matches
nothing. -/
def lookupSig (sigs : List (String × EventSignatureInfo)) (lg : Log) :
    Option EventSignatureInfo :=
  match lg.topics with
  | [] => none
  | t0 :: _ =>
    match sigs.find? (fun p => p.1 == topicHex t0) with
    | some p => some p.2
    | none => none

/-- The DecodedEvent row storeEvent builds from one log and its optional
signature-table entry, before the upsert. -/
def buildEvent (unpack : List Argument → List Nat → Option (List GoValue))
    (lg : Log) (eventSig : Option EventSignatureInfo) : BlockchainEvent :=
  let decodedParams :=
    match eventSig with
    | some sig =>
      match sig.originalABI with
      | some orig =>
        let s := splitInputs sig.inputs orig.inputs
        let p1 := decodeIndexedLoop s.indexed s.origIndexed (lg.topics.drop 1) []
        decodeNonIndexed unpack s.nonIndexed s.origNonIndexed lg.data p1
      | none => []
    | none => []
  { txHash := topicHex lg.txHash
    txIndex := lg.txIndex
    blockNumber := lg.blockNumber
    blockHash := topicHex lg.blockHash
    logIndex := lg.index
    removed := lg.removed
    contractAddress := addressEIP55Hex lg.address
    eventSignature := match lg.topics with
      | [] => ""
      | t0 :: _ => topicHex t0
    eventName := eventSig.map EventSignatureInfo.name
    eventFullSignature := eventSig.map EventSignatureInfo.signature
    otherTopics := (lg.topics.drop 1).map topicHex
    rawData := bytesHex lg.data
    decodedParams := decodedParams }

/-- Key predicate of the unique index on (tx_hash, log_index). -/
def keyMatches (e : BlockchainEvent) (tx : String) (li : Nat) : Bool :=
  e.txHash == tx && e.logIndex == li

/-- The on-conflict assignment list of the upsert: every column except the two
key columns is overwritten from the incoming row. -/
def assignUpdatedColumns (old e2 : BlockchainEvent) : BlockchainEvent :=
  { old with
    txIndex := e2.txIndex
    blockNumber := e2.blockNumber
    blockHash := e2.blockHash
    removed := e2.removed
    contractAddress := e2.contractAddress
    eventSignature := e2.eventSignature
    eventName := e2.eventName
    eventFullSignature := e2.eventFullSignature
    otherTopics := e2.otherTopics
    rawData := e2.rawData
    decodedParams := e2.decodedParams }

/-- The storage engines unique-key upsert on (tx_hash, log_index): rows
holding the key receive the assignment list, otherwise the row is inserted. -/
def upsertEvent (events : List BlockchainEvent) (e : BlockchainEvent) :
    List BlockchainEvent :=
  if events.any (fun x => keyMatches x e.txHash e.logIndex) then
    events.map (fun x => if keyMatches x e.txHash e.logIndex then
      assignUpdatedColumns x e else x)
  else events ++ [e]

/-- Number of persisted rows holding a given (tx_hash, log_index) key; the
unique index keeps it at most one. -/
def countKey (events : List BlockchainEvent) (tx : String) (li : Nat) : Nat :=
  (events.filter (fun x => keyMatches x tx li)).length

/-- The persisted row holding a given (tx_hash, log_index) key, if any. -/
def findByKey (events : List BlockchainEvent) (tx : String) (li : Nat) :
    Option BlockchainEvent :=
  events.find? (fun x => keyMatches x tx li)

/-- Possible outcomes of one storeEvent call. -/
inductive StoreResult where
  | stored (events : List BlockchainEvent)
  | dbError (msg : String)
  | panicked (msg : String)

/-- storeEvent from processor.go.  Its first statement allocates the
otherTopics slice with capacity one less than the topic count; for a log with
no topics that capacity is negative and the Go runtime panics.  Otherwise the
row is built and upserted; a storage error surfaces as an error return,
injected here through the createFails oracle. -/
def storeEvent (unpack : List Argument → List Nat → Option (List GoValue))
    (events : List BlockchainEvent) (lg : Log)
    (eventSig : Option EventSignatureInfo) (createFails : Bool) : StoreResult :=
  let cap2 : Int := (lg.topics.length : Int) - 1
  if cap2 < 0 then .panicked "makeslice: cap out of range"
  else if createFails then .dbError "failed to store event"
  else .stored (upsertEvent events (buildEvent unpack lg eventSig))

/-! ## Cursor, transaction and block-range processing (processor.go) -/

/-- The single logical Cursor row (primary key 1); count is a Go int. -/
structure Cursor where
  count : Int
deriving DecidableEq, Repr

/-- Conversion of a big.Int to a Go int64 as big.Int.Int64 behaves on 64-bit
platforms: reduction modulo two to the sixty-fourth into the signed range. -/
def goInt64 (n : Int) : Int :=
  (n + 9223372036854775808) % 18446744073709551616 - 9223372036854775808

/-- storeCursor from processor.go: create the row with the given count when
absent, otherwise update its count; either way the stored count is the block
number converted to a Go int. -/
def storeCursorRow (cur : Option Cursor) (c : Int) : Cursor :=
  match cur with
  | none => { count := goInt64 c }
  | some _ => { count := goInt64 c }

/-- The persistent state the Block-Range Indexer owns: the DecodedEvent rows
and the Cursor row. -/
structure IndexerDB where
  events : List BlockchainEvent
  cursor : Option Cursor

/-- Failure points the storage engine can inject into one processBlockRange
call: the transaction begin, the i-th event insert, the cursor write, or the
commit. -/
inductive DbFault where
  | beginTx
  | createEvent (i : Nat)
  | cursorStore
  | commitTx
deriving DecidableEq, Repr

/-- Observable outcome of one processBlockRange call. -/
inductive RangeOutcome where
  | ok
  | err (msg : String)
  | panicked (msg : String)
deriving DecidableEq, Repr

/-- The retry loop around FilterLogs.  The oracle supplies one reply per
attempted call (some logs or a transport failure), with as many entries as
the configured retry budget; the loop stops at the first success.  An empty
budget leaves both the error and the log slice nil, which the caller treats
as a successful empty fetch. -/
def retryFetchLoop : List (Option (List Log)) → Option (List Log)
  | [] => none
  | some logs :: _ => some logs
  | none :: rest => retryFetchLoop rest

/-- FilterLogs result after the retry loop of processBlockRange. -/
def retryFetch (responses : List (Option (List Log))) : Option (List Log) :=
  if responses.isEmpty then some [] else retryFetchLoop responses

/-- Result of the per-log store loop inside the transaction. -/
inductive StoreLoopResult where
  | done (events : List BlockchainEvent)
  | failed (msg : String)
  | panicked (msg : String)

/-- The per-log loop of processBlockRange: each log is classified against the
signature table and stored through storeEvent inside the transaction; the
first error rolls back, a Go panic propagates. -/
def storeLoop (sigs : List (String × EventSignatureInfo))
    (unpack : List Argument → List Nat → Option (List GoValue))
    (fault : Option DbFault) :
    List BlockchainEvent → List Log → Nat → StoreLoopResult
  | evs, [], _ => .done evs
  | evs, lg :: rest, i =>
    match storeEvent unpack evs lg (lookupSig sigs lg)
        (fault = some (.createEvent i)) with
    | .panicked m => .panicked m
    | .dbError m => .failed ("failed to store event: " ++ m)
    | .stored evs2 => storeLoop sigs unpack fault evs2 rest (i + 1)

/-- processBlockRange from processor.go, returning the persisted database
state after the call together with the outcome.  All writes go to a
transaction snapshot; every error path calls Rollback before returning, so
the persisted state is the entry state, and only the single final Commit
publishes the snapshot.  A panic escapes before Commit, so the server aborts
the open transaction and the entry state persists as well.  The block range
bounds shape only the FilterLogs query, whose replies are the responses
oracle. -/
def processBlockRange (db : IndexerDB) (sigs : List (String × EventSignatureInfo))
    (unpack : List Argument → List Nat → Option (List GoValue))
    (fromBlock toBlock : Int) (responses : List (Option (List Log)))
    (fault : Option DbFault) : IndexerDB × RangeOutcome :=
  match retryFetch responses with
  | none => (db, .err "failed to filter logs")
  | some logs =>
    if fault = some .beginTx then (db, .err "failed to start transaction")
    else if logs.isEmpty then
      if fault = some .cursorStore then (db, .err "failed to store Cursor")
      else if fault = some .commitTx then (db, .err "failed to commit transaction")
      else ({ db with cursor := some (storeCursorRow db.cursor toBlock) }, .ok)
    else
      match storeLoop sigs unpack fault db.events logs 0 with
      | .panicked m => (db, .panicked m)
      | .failed m => (db, .err m)
      | .done evs =>
        if fault = some .cursorStore then (db, .err "failed to store Cursor")
        else if fault = some .commitTx then (db, .err "failed to commit transaction")
        else ({ events := evs, cursor := some (storeCursorRow db.cursor toBlock) }, .ok)

/-! ## Service startup and the tail monitor (service.go) -/

/-- calculateStartingBlock from service.go: with a Cursor row present, resume
from its stored count unless the chain head is at or below it; without one,
start from the configured start block under the same head comparison.  The
first component is the catch-up lower bound (absent when no catch-up runs),
the second the saved block the caller falls back to. -/
def calculateStartingBlock (cursorRow : Option Cursor) (startCfg latest : Int) :
    Option Int × Option Int :=
  match cursorRow with
  | some counter =>
    let block := counter.count
    if latest ≤ block then (none, some block) else (some block, none)
  | none =>
    let block := startCfg
    if latest ≤ block then (none, some block) else (some block, none)

/-- The catch-up range IndexerService.Start hands to processBlockRange: the
calculateStartingBlock lower bound when present, paired with the fetched
latest block. -/
def startCatchupCall (cursorRow : Option Cursor) (startCfg latest : Int) :
    Option (Int × Int) :=
  match calculateStartingBlock cursorRow startCfg latest with
  | (some fromB, _) => some (fromB, latest)
  | (none, _) => none

/-- In-memory state of the continuous monitoring loop: the watermark
lastProcessedBlock plus the persistent store. -/
structure MonitorState where
  lastProcessedBlock : Int
  db : IndexerDB

/-- One iteration of startContinuousMonitoring.  A failed head fetch leaves
the state unchanged.  A head above the watermark scans from the watermark
plus one up to the head; the processBlockRange return value is discarded and
the watermark is set to the head whatever the outcome was.  Only a Go panic
escaping processBlockRange stops the loop. -/
def monitoringStep (sigs : List (String × EventSignatureInfo))
    (unpack : List Argument → List Nat → Option (List GoValue))
    (st : MonitorState) (head : Option Int)
    (responses : List (Option (List Log))) (fault : Option DbFault) :
    Option MonitorState :=
  match head with
  | none => some st
  | some currentBlock =>
    if st.lastProcessedBlock < currentBlock then
      let r := processBlockRange st.db sigs unpack (st.lastProcessedBlock + 1)
        currentBlock responses fault
      match r.2 with
      | .panicked _ => none
      | _ => some { lastProcessedBlock := currentBlock, db := r.1 }
    else some st

/-- The block range one monitoring iteration scans, straight from the range
computation in startContinuousMonitoring: watermark plus one up to the head,
when the head is strictly above the watermark. -/
def monitoringScanRange (st : MonitorState) (head : Int) : Option (Int × Int) :=
  if st.lastProcessedBlock < head then some (st.lastProcessedBlock + 1, head)
  else none

/-- Outcome of IndexerService.Start up to the point where the continuous
monitoring loop would take over. -/
inductive StartOutcome where
  | failed (msg : String)
  | monitoring
deriving DecidableEq, Repr

/-- The loadEventSignaturesOnDB method of IndexerService: a missing ABI
directory is returned as an error (whose text announces continuing without
decoding), as is a failure of the directory walk. -/
def loadEventSignaturesOnDBCheck (abiDirExists walkOK : Bool) : Option String :=
  if abiDirExists = false then
    some "ABI directory does not exist, continuing without event signature decoding... "
  else if walkOK = false then some "faild to store event on database"
  else none

/-- The startup sequence of IndexerService.Start with each collaborator
outcome supplied as an oracle: database init and the loadEventSignaturesOnDB
error abort startup; a loadEventSignatures failure only logs a warning;
connecting and the first head fetch abort on failure; otherwise control
reaches the monitoring loop. -/
def serviceStart (dbInitOK abiDirExists walkOK sigLoadOK connectOK headOK : Bool) :
    StartOutcome :=
  if dbInitOK = false then .failed "failed to initialize database"
  else
    match loadEventSignaturesOnDBCheck abiDirExists walkOK with
    | some e => .failed ("failed to store event on db : " ++ e)
    | none =>
      let _ := sigLoadOK
      if connectOK = false then .failed "failed to connect to blockchain"
      else if headOK = false then .failed "failed to get latest block"
      else .monitoring

/-! ## Helper lemmas -/

/-- Both branches of storeCursor write the block number converted to a Go
int as the count. -/
theorem storeCursorRow_eq (cur : Option Cursor) (c : Int) :
    storeCursorRow cur c = { count := goInt64 c } := by
  cases cur <;> rfl

/-- The Go int64 conversion is the identity on the signed 64-bit range. -/
theorem goInt64_eq_self (n : Int) (h1 : -9223372036854775808 ≤ n)
    (h2 : n < 9223372036854775808) : goInt64 n = n := by
  unfold goInt64
  omega

/-- Reversed character sequence of k trailing array markers. -/
def markersRev : Nat → List Char
  | 0 => []
  | k + 1 => ']' :: '[' :: markersRev k

/-- The stripped pairs prepended to the remaining characters reconstruct the
input of the marker-stripping loop. -/
theorem markersRev_strip : ∀ cs : List Char,
    markersRev (stripArrayMarkersRev cs).2 ++ (stripArrayMarkersRev cs).1 = cs
  | [] => by simp [stripArrayMarkersRev, markersRev]
  | [c] => by simp [stripArrayMarkersRev, markersRev]
  | c1 :: c2 :: rest => by
    rw [stripArrayMarkersRev.eq_def]
    split
    · rename_i rest2 heq
      injection heq with h1 htl
      injection htl with h2 htl2
      subst h1
      subst h2
      subst htl2
      simpa [markersRev] using markersRev_strip rest
    · simp [markersRev]

/-- The marker-stripping loop leaves no further marker pair in front of the
reversed remainder. -/
theorem strip_no_marker_head : ∀ (cs r : List Char),
    (stripArrayMarkersRev cs).1 ≠ ']' :: '[' :: r
  | [], r => by simp [stripArrayMarkersRev]
  | [c], r => by simp [stripArrayMarkersRev]
  | c1 :: c2 :: rest, r => by
    rw [stripArrayMarkersRev.eq_def]
    split
    · rename_i rest2 heq
      injection heq with h1 htl
      injection htl with h2 htl2
      subst h1
      subst h2
      subst htl2
      simpa using strip_no_marker_head rest r
    · rename_i hno
      intro hEq
      simp only at hEq
      exact hno r hEq

/-- Characters of the accumulated array suffix. -/
theorem arraySuffixOf_data (k : Nat) :
    (arraySuffixOf k).data = (markersRev k).reverse := by
  induction k with
  | zero => rfl
  | succ n ih => simp [arraySuffixOf, markersRev, ih]

/-- Soundness of the stripping loop: base and suffix recombine to the
declared type string. -/
theorem baseAndSuffix_recombine (t : String) :
    (baseAndSuffix t).1 ++ (baseAndSuffix t).2 = t := by
  apply String.ext
  simp only [baseAndSuffix]
  rw [String.data_append]
  simp only []
  rw [arraySuffixOf_data]
  have h := markersRev_strip t.data.reverse
  have := congrArg List.reverse h
  simpa using this

/-- Completeness of the stripping loop: the base carries no trailing array
marker. -/
theorem baseAndSuffix_base_maximal (t : String) (r : List Char) :
    (baseAndSuffix t).1.data.reverse ≠ ']' :: '[' :: r := by
  simp only [baseAndSuffix]
  rw [List.reverse_reverse]
  exact strip_no_marker_head t.data.reverse r

/-- The assignment list never touches the two key columns. -/
theorem keyMatches_assign (x e : BlockchainEvent) (tx : String) (li : Nat) :
    keyMatches (assignUpdatedColumns x e) tx li = keyMatches x tx li := rfl

/-- A row always matches its own key. -/
theorem keyMatches_self (e : BlockchainEvent) :
    keyMatches e e.txHash e.logIndex = true := by
  simp [keyMatches]

/-- When no row matches the key the key count is zero. -/
theorem countKey_eq_zero_of_any_false (events : List BlockchainEvent) (tx : String)
    (li : Nat) (h : events.any (fun x => keyMatches x tx li) = false) :
    countKey events tx li = 0 := by
  simp only [countKey, List.length_eq_zero]
  rw [List.filter_eq_nil_iff]
  intro x hx
  simp only [List.any_eq_false] at h
  simp [h x hx]

/-- Overwriting rows that match the key row by row assigns the full incoming
row whenever the matched row shares both key columns. -/
theorem assign_eq_of_key (x e : BlockchainEvent)
    (h : keyMatches x e.txHash e.logIndex = true) :
    assignUpdatedColumns x e = e := by
  simp only [keyMatches, Bool.and_eq_true, beq_iff_eq] at h
  cases x
  cases e
  simp_all [assignUpdatedColumns]

/-- Mapping a function that preserves the predicate across a list commutes
with find?. -/
theorem find?_map_pred_invariant {α : Type} {f : α → α} {p : α → Bool}
    (hf : ∀ x, p (f x) = p x) :
    ∀ l : List α, (l.map f).find? p = (l.find? p).map f
  | [] => rfl
  | a :: l => by
    by_cases hp : p a
    · have hfa : p (f a) = true := by rw [hf]; exact hp
      simp [List.find?_cons_of_pos _ hfa, List.find?_cons_of_pos _ hp]
    · have hfa : ¬ p (f a) = true := by rw [hf]; exact hp
      simp only [List.map_cons, List.find?_cons_of_neg _ hfa,
        List.find?_cons_of_neg _ hp, find?_map_pred_invariant hf l]

/-- After an upsert under the unique-index invariant, exactly one row holds
the key. -/
theorem upsert_countKey (events : List BlockchainEvent) (e : BlockchainEvent)
    (h : countKey events e.txHash e.logIndex ≤ 1) :
    countKey (upsertEvent events e) e.txHash e.logIndex = 1 := by
  unfold upsertEvent
  split
  · rename_i hany
    have hmap : (events.map (fun x => if keyMatches x e.txHash e.logIndex then
        assignUpdatedColumns x e else x)).filter
          (fun x => keyMatches x e.txHash e.logIndex)
        = (events.filter (fun x => keyMatches x e.txHash e.logIndex)).map
          (fun x => if keyMatches x e.txHash e.logIndex then
            assignUpdatedColumns x e else x) := by
      rw [List.filter_map]
      congr 1
      apply List.filter_congr
      intro x hx
      by_cases hk : keyMatches x e.txHash e.logIndex
      · simp [hk, keyMatches_assign]
      · simp only [Bool.not_eq_true] at hk
        simp [hk]
    have hge : 1 ≤ countKey events e.txHash e.logIndex := by
      simp only [List.any_eq_true] at hany
      obtain ⟨x, hx, hkx⟩ := hany
      simp only [countKey]
      have hmem : x ∈ events.filter (fun x => keyMatches x e.txHash e.logIndex) :=
        List.mem_filter.mpr ⟨hx, hkx⟩
      exact List.length_pos.mpr (List.ne_nil_of_mem hmem)
    simp only [countKey] at *
    rw [hmap, List.length_map]
    omega
  · rename_i hany
    simp only [Bool.not_eq_true] at hany
    have h0 := countKey_eq_zero_of_any_false events e.txHash e.logIndex hany
    simp only [countKey] at *
    rw [List.filter_append]
    simp only [List.length_append]
    rw [List.length_eq_zero.mp h0]
    simp [keyMatches_self]

/-- After an upsert the row found under the key is exactly the incoming row:
the insert branch appends it, the update branch rewrites the matched row with
the full assignment list. -/
theorem upsert_findByKey (events : List BlockchainEvent) (e : BlockchainEvent) :
    findByKey (upsertEvent events e) e.txHash e.logIndex = some e := by
  unfold upsertEvent findByKey
  split
  · rename_i hany
    rw [find?_map_pred_invariant (fun x => by
      by_cases hk : keyMatches x e.txHash e.logIndex
      · simp [hk, keyMatches_assign]
      · simp only [Bool.not_eq_true] at hk
        simp [hk])]
    simp only [List.any_eq_true] at hany
    obtain ⟨x, hx, hkx⟩ := hany
    rcases hfind : events.find? (fun x => keyMatches x e.txHash e.logIndex) with _ | x0
    · rw [List.find?_eq_none] at hfind
      exact absurd hkx (by simpa using hfind x hx)
    · have hk0 := List.find?_some hfind
      simp [hk0, assign_eq_of_key x0 e hk0]
  · rename_i hany
    simp only [Bool.not_eq_true] at hany
    rw [List.find?_append]
    rw [List.find?_eq_none.mpr (by
      intro x hx
      simp only [List.any_eq_false] at hany
      simp [hany x hx])]
    simp [keyMatches_self]

/-- Reading a cons cell of a string-keyed map. -/
theorem lookupParam_cons (p : String × GoValue) (m : List (String × GoValue))
    (k : String) :
    lookupParam (p :: m) k = if p.1 == k then some p.2 else lookupParam m k := by
  by_cases h : p.1 == k
  · simp [lookupParam, List.find?_cons_of_pos _ h, h]
  · simp only [Bool.not_eq_true] at h
    simp [lookupParam, List.find?_cons_of_neg, h]

/-- Overwriting every entry holding a key makes the key read back the new
value, provided some entry held it. -/
theorem lookup_map_overwrite_self (m : List (String × GoValue)) (k : String)
    (v : GoValue) (hany : m.any (fun q => q.1 == k) = true) :
    lookupParam (m.map fun q => if q.1 == k then (k, v) else q) k = some v := by
  induction m with
  | nil => simp at hany
  | cons q tl ih =>
    by_cases hq : (q.1 == k) = true
    · have hq2 : q.1 = k := by simpa using hq
      simp [hq2, lookupParam_cons]
    · simp only [Bool.not_eq_true] at hq
      have hq2 : ¬ q.1 = k := by simpa using hq
      have htl : tl.any (fun q => q.1 == k) = true := by
        simpa [hq] using hany
      have ih2 := ih htl
      simp only [beq_iff_eq] at ih2
      simp [hq2, lookupParam_cons, ih2]

/-- Overwriting the entries of one key leaves every other key unchanged. -/
theorem lookup_map_overwrite_ne (m : List (String × GoValue)) (k n : String)
    (v : GoValue) (h : k ≠ n) :
    lookupParam (m.map fun q => if q.1 == k then (k, v) else q) n =
      lookupParam m n := by
  induction m with
  | nil => rfl
  | cons q tl ih =>
    simp only [beq_iff_eq] at ih
    by_cases hq : (q.1 == k) = true
    · have hq2 : q.1 = k := by simpa using hq
      have h2 : ¬ q.1 = n := by rw [hq2]; exact h
      simp [hq2, lookupParam_cons, h, h2, ih]
    · simp only [Bool.not_eq_true] at hq
      have hq2 : ¬ q.1 = k := by simpa using hq
      simp [hq2, lookupParam_cons, ih]

/-- Map assignment makes the assigned key read back the assigned value. -/
theorem lookupParam_mapInsert_self (m : List (String × GoValue)) (k : String)
    (v : GoValue) : lookupParam (mapInsert m k v) k = some v := by
  unfold mapInsert
  split
  · rename_i hany
    exact lookup_map_overwrite_self m k v hany
  · rename_i hany
    unfold lookupParam
    rw [List.find?_append]
    rw [List.find?_eq_none.mpr (by
      intro q hq
      simp only [List.any_eq_true] at hany
      push_neg at hany
      simp [hany q hq])]
    simp

/-- Map assignment leaves every other key unchanged. -/
theorem lookupParam_mapInsert_ne (m : List (String × GoValue)) (k n : String)
    (v : GoValue) (h : k ≠ n) :
    lookupParam (mapInsert m k v) n = lookupParam m n := by
  unfold mapInsert
  split
  · rename_i hany
    exact lookup_map_overwrite_ne m k n v h
  · unfold lookupParam
    rw [List.find?_append]
    have h1 : (k == n) = false := by simpa using h
    simp [h1]

/-- The indexed loop on an empty input list returns the accumulator. -/
theorem decodeIndexedLoop_nil (origs : List ABIInput) (ts : List (List Nat))
    (acc : List (String × GoValue)) :
    decodeIndexedLoop [] origs ts acc = acc := rfl

/-- With the topics exhausted every remaining input is skipped. -/
theorem decodeIndexedLoop_cons_nil (a : Argument) (as : List Argument)
    (origs : List ABIInput) (acc : List (String × GoValue)) :
    decodeIndexedLoop (a :: as) origs [] acc =
      decodeIndexedLoop as (origs.drop 1) [] acc := rfl

/-- One step of the indexed loop with original metadata available. -/
theorem decodeIndexedLoop_cons_cons (a : Argument) (as : List Argument)
    (o : ABIInput) (os : List ABIInput) (t : List Nat) (ts : List (List Nat))
    (acc : List (String × GoValue)) :
    decodeIndexedLoop (a :: as) (o :: os) (t :: ts) acc =
      decodeIndexedLoop as os ts (mapInsert acc a.name
        (decodeParameterWithComponents (decodeIndexedTopicValue a.typeT t) o)) := rfl

/-- One step of the indexed loop past the end of the original metadata. -/
theorem decodeIndexedLoop_cons_noorig (a : Argument) (as : List Argument)
    (t : List Nat) (ts : List (List Nat)) (acc : List (String × GoValue)) :
    decodeIndexedLoop (a :: as) [] (t :: ts) acc =
      decodeIndexedLoop as [] ts (mapInsert acc a.name
        (decodeIndexedTopicValue a.typeT t)) := rfl

/-- A name carried by no input is untouched by the whole indexed loop. -/
theorem decodeIndexedLoop_lookup_skip (inputs : List Argument)
    (origs : List ABIInput) (ts : List (List Nat))
    (acc : List (String × GoValue)) (n : String)
    (h : n ∉ inputs.map Argument.name) :
    lookupParam (decodeIndexedLoop inputs origs ts acc) n = lookupParam acc n := by
  induction inputs generalizing origs ts acc with
  | nil => rw [decodeIndexedLoop_nil]
  | cons a as ih =>
    simp only [List.map_cons, List.mem_cons, not_or] at h
    cases ts with
    | nil =>
      rw [decodeIndexedLoop_cons_nil]
      exact ih _ _ _ h.2
    | cons t ts2 =>
      cases origs with
      | nil =>
        rw [decodeIndexedLoop_cons_noorig, ih _ _ _ h.2]
        exact lookupParam_mapInsert_ne _ _ _ _ (Ne.symm h.1)
      | cons o os =>
        rw [decodeIndexedLoop_cons_cons, ih _ _ _ h.2]
        exact lookupParam_mapInsert_ne _ _ _ _ (Ne.symm h.1)

/-- Position alignment of the indexed loop: with pairwise distinct input
names, the k-th input with its k-th original metadata reads the k-th topic of
the walked list, decoded by the topic switch and normalised by
decodeParameterWithComponents. -/
theorem decodeIndexedLoop_lookup_at (k : Nat) (inputs : List Argument)
    (origs : List ABIInput) (ts : List (List Nat))
    (acc : List (String × GoValue)) (a : Argument) (o : ABIInput) (t : List Nat)
    (ha : inputs[k]? = some a) (ho : origs[k]? = some o) (ht : ts[k]? = some t)
    (hnd : (inputs.map Argument.name).Nodup) :
    lookupParam (decodeIndexedLoop inputs origs ts acc) a.name =
      some (decodeParameterWithComponents (decodeIndexedTopicValue a.typeT t) o) := by
  induction k generalizing inputs origs ts acc with
  | zero =>
    cases inputs with
    | nil => simp at ha
    | cons a0 as =>
      cases origs with
      | nil => simp at ho
      | cons o0 os =>
        cases ts with
        | nil => simp at ht
        | cons t0 ts2 =>
          simp only [List.getElem?_cons_zero, Option.some_inj] at ha ho ht
          subst ha
          subst ho
          subst ht
          rw [decodeIndexedLoop_cons_cons]
          simp only [List.map_cons, List.nodup_cons] at hnd
          rw [decodeIndexedLoop_lookup_skip as os ts2 _ _ hnd.1]
          exact lookupParam_mapInsert_self _ _ _
  | succ k2 ih =>
    cases inputs with
    | nil => simp at ha
    | cons a0 as =>
      cases origs with
      | nil => simp at ho
      | cons o0 os =>
        cases ts with
        | nil => simp at ht
        | cons t0 ts2 =>
          simp only [List.getElem?_cons_succ] at ha ho ht
          rw [decodeIndexedLoop_cons_cons]
          simp only [List.map_cons, List.nodup_cons] at hnd
          exact ih as os ts2 _ ha ho ht hnd.2

/-- Decoded-value table of the amended claim C6, written from its text:
address yields the checksummed hex of the topic's last 20 bytes; signed and
unsigned integers yield the decimal string of the unsigned big-endian parse
of the 32 topic bytes; boolean yields the Go boolean that is true exactly
when the low byte equals 1; string yields the raw topic bytes reinterpreted
as a string; bytes and fixed-bytes yield the plain hex encoding of the raw 32
topic bytes; any other type yields the 0x-prefixed hex rendering of the raw
topic bytes. -/
def indexedDecodeSpec (ty : AbiT) (t : List Nat) : GoValue :=
  match ty with
  | .addressTy => .str (addressEIP55Hex (hexToAddressOfTopic t))
  | .intTy => .str (toString (beBytesNat t))
  | .uintTy => .str (toString (beBytesNat t))
  | .boolTy => .boolV (t.getD 31 0 == 1)
  | .stringTy => .str (goStringOfBytes t)
  | .fixedBytesTy => .str (bytesHex t)
  | .bytesTy => .str (bytesHex t)
  | _ => .str ("0x" ++ bytesHex t)

/-! ## Concrete data used by counterexamples and witnesses -/

/-- Data-blob decoder oracle that always reports a decode failure; the claims
below do not depend on the non-indexed decode. -/
def unpackNone : List Argument → List Nat → Option (List GoValue) :=
  fun _ _ => none

/-- A store whose durably committed cursor is block 5, with no event rows. -/
def sampleIndexerDB : IndexerDB := { events := [], cursor := some { count := 5 } }

/-- Monitor state whose in-memory watermark agrees with the committed
cursor at block 5. -/
def sampleMonitorState : MonitorState :=
  { lastProcessedBlock := 5, db := sampleIndexerDB }

/-! ## The claims -/

/-- C1: whenever processBlockRange returns an error — exhausted log-fetch
retries, a failed event store, a failed cursor store, a failed begin or a
failed commit — the persisted state after the call is exactly the state
before it: no DecodedEvent row and no Cursor change is persisted, so the
persisted cursor never advances past logs that were not durably stored. -/
theorem claim1_error_persists_nothing
    (db : IndexerDB) (sigs : List (String × EventSignatureInfo))
    (unpack : List Argument → List Nat → Option (List GoValue))
    (fromBlock toBlock : Int) (responses : List (Option (List Log)))
    (fault : Option DbFault) (m : String)
    (h : (processBlockRange db sigs unpack fromBlock toBlock responses fault).2 =
      .err m) :
    (processBlockRange db sigs unpack fromBlock toBlock responses fault).1 = db := by
  rcases hEq : processBlockRange db sigs unpack fromBlock toBlock responses fault
    with ⟨db2, out⟩
  rw [hEq] at h
  simp only at h ⊢
  unfold processBlockRange at hEq
  repeat' split at hEq
  all_goals cases hEq
  all_goals simp at h ⊢

/-- C1 witness: a call whose fetch retries are exhausted errors out and
leaves the store untouched. -/
theorem claim1_error_persists_nothing_witness :
    (processBlockRange sampleIndexerDB [] unpackNone 6 7 [none] none).1 =
      sampleIndexerDB :=
  claim1_error_persists_nothing sampleIndexerDB [] unpackNone 6 7 [none] none
    "failed to filter logs" (by rfl)

/-- C2: every successful processBlockRange call — a zero-log fetch included —
persists a Cursor whose count is the upper bound of the scanned range. -/
theorem claim2_success_advances_cursor_to_upper_bound
    (db : IndexerDB) (sigs : List (String × EventSignatureInfo))
    (unpack : List Argument → List Nat → Option (List GoValue))
    (fromBlock toBlock : Int) (responses : List (Option (List Log)))
    (fault : Option DbFault)
    (h : (processBlockRange db sigs unpack fromBlock toBlock responses fault).2 =
      .ok)
    (h1 : -9223372036854775808 ≤ toBlock) (h2 : toBlock < 9223372036854775808) :
    (processBlockRange db sigs unpack fromBlock toBlock responses fault).1.cursor =
      some { count := toBlock } := by
  rcases hEq : processBlockRange db sigs unpack fromBlock toBlock responses fault
    with ⟨db2, out⟩
  rw [hEq] at h
  simp only at h ⊢
  unfold processBlockRange at hEq
  repeat' split at hEq
  all_goals cases hEq
  all_goals simp_all [storeCursorRow_eq, goInt64_eq_self toBlock h1 h2]

/-- C2 witness: a scan of an empty range up to block 7 commits cursor 7. -/
theorem claim2_success_advances_cursor_to_upper_bound_witness :
    (processBlockRange sampleIndexerDB [] unpackNone 6 7 [some []] none).1.cursor =
      some { count := 7 } :=
  claim2_success_advances_cursor_to_upper_bound sampleIndexerDB [] unpackNone 6 7
    [some []] none (by rfl) (by decide) (by decide)

/-- C3 is refuted by the code: when the scan of blocks 6 to 7 fails (here the
fetch retries are exhausted), startContinuousMonitoring discards the error
returned by processBlockRange — nothing is logged — and still advances the
in-memory watermark to the head 7, while the durably committed cursor stays
at 5; the next iteration therefore derives its range from the optimistic
watermark and scans 8 to 9, so blocks 6 and 7 are silently skipped. -/
theorem claim3_failed_scan_still_advances_watermark :
    monitoringStep [] unpackNone sampleMonitorState (some 7) [none] none =
      some { lastProcessedBlock := 7, db := sampleIndexerDB } ∧
    (processBlockRange sampleIndexerDB [] unpackNone 6 7 [none] none).2 =
      .err "failed to filter logs" ∧
    sampleIndexerDB.cursor = some { count := 5 } ∧
    monitoringScanRange { lastProcessedBlock := 7, db := sampleIndexerDB } 9 =
      some (8, 9) ∧
    (7 : Int) ≠ 5 :=
  ⟨rfl, rfl, rfl, rfl, by decide⟩

/-- C8 is refuted by the code: with the database reachable but the configured
ABI source directory missing, IndexerService.Start returns the
loadEventSignaturesOnDB error — whose own text promises to continue without
event signature decoding — and startup terminates instead of entering
unknown-event mode. -/
theorem claim8_missing_abi_dir_aborts_startup :
    serviceStart true false true true true true =
      .failed ("failed to store event on db : " ++
        "ABI directory does not exist, continuing without event signature decoding... ") ∧
    serviceStart true false true true true true ≠ .monitoring := by
  constructor
  · rfl
  · decide

/-- C9: with a persisted Cursor at block c and the chain head h strictly
above it, the catch-up range Start hands to processBlockRange is from c
itself — not c plus one — up to h, so the block already recorded as
processed is fetched and decoded again after every restart. -/
theorem claim9_catchup_lower_bound_is_cursor_value
    (c h2 cfg : Int) (hgt : c < h2) :
    startCatchupCall (some { count := c }) cfg h2 = some (c, h2) := by
  unfold startCatchupCall calculateStartingBlock
  simp [not_le.mpr hgt]

/-- C9 witness: cursor at 5, head 9 — the catch-up scan starts at 5. -/
theorem claim9_catchup_lower_bound_is_cursor_value_witness :
    startCatchupCall (some { count := 5 }) 1 9 = some (5, 9) :=
  claim9_catchup_lower_bound_is_cursor_value 5 9 1 (by decide)

/-- A log with an empty topic list, as an anonymous event with no indexed
parameters produces. -/
def zeroTopicLog : Log :=
  { txHash := List.replicate 32 0
    txIndex := 0
    blockNumber := 1
    blockHash := List.replicate 32 0
    index := 0
    removed := false
    address := List.replicate 20 0
    topics := []
    data := [] }

/-- C10 is refuted by the code: storeEvent is not total on zero-topic logs.
Its first statement allocates the otherTopics slice with capacity
len(topics) minus one, which is negative for an empty topic list, and the Go
runtime panics before any field of the row is computed. -/
theorem claim10_zero_topics_panics :
    storeEvent unpackNone [] zeroTopicLog none false =
      .panicked "makeslice: cap out of range" := by
  rfl

/-- C5: ResolveType returns the canonical type token.  The stripping loop
removes exactly the trailing array markers (they recombine to the declared
string and the base retains none); a stripped base equal to tuple yields the
parenthesised comma-joined recursive canonical component types with the
markers re-appended, any other base yields the declared type unchanged, at
arbitrary nesting depth; BuildEventSignature joins the canonical input types
after the event name; and the named examples hold: a (uint256, address)
tuple yields (uint256,address), its array yields (uint256,address)[]. -/
theorem claim5_resolve_type_canonical :
    (∀ t : String, (baseAndSuffix t).1 ++ (baseAndSuffix t).2 = t) ∧
    (∀ (t : String) (r : List Char),
      (baseAndSuffix t).1.data.reverse ≠ ']' :: '[' :: r) ∧
    (∀ input : ABIInput, (baseAndSuffix input.type).1 ≠ "tuple" →
      ResolveType input = input.type) ∧
    (∀ input : ABIInput, (baseAndSuffix input.type).1 = "tuple" →
      ResolveType input =
        "(" ++ String.intercalate "," (input.components.map ResolveType) ++ ")" ++
          (baseAndSuffix input.type).2) ∧
    (∀ event : ABIEvent, BuildEventSignature event =
      event.name ++ "(" ++
        String.intercalate "," (event.inputs.map ResolveType) ++ ")") ∧
    ResolveType (.mk "p" "tuple" false
      [.mk "a" "uint256" false [] "", .mk "b" "address" false [] ""] "") =
      "(uint256,address)" ∧
    ResolveType (.mk "p" "tuple[]" false
      [.mk "a" "uint256" false [] "", .mk "b" "address" false [] ""] "") =
      "(uint256,address)[]" ∧
    ResolveType (.mk "d" "tuple[][]" false
      [.mk "x" "tuple[]" false [.mk "y" "uint8" false [] ""] "",
       .mk "z" "bytes32" false [] ""] "") = "((uint8)[],bytes32)[][]" := by
  refine ⟨baseAndSuffix_recombine, baseAndSuffix_base_maximal, ?_, ?_,
    fun event => rfl, ?_, ?_, ?_⟩
  · intro input h
    rw [ResolveType]
    simp [h]
  · intro input h
    rw [ResolveType, resolveTypeList_eq_map]
    simp [h]
  all_goals simp [ResolveType, resolveTypeList, ABIInput.type, ABIInput.components]
  all_goals decide

/-- C5 witness: the non-tuple and tuple clauses applied at concrete inputs, a
plain array type and the named tuple example. -/
theorem claim5_resolve_type_canonical_witness :
    ResolveType (.mk "x" "uint256[]" false [] "") = "uint256[]" ∧
    ResolveType (.mk "p" "tuple" false
      [.mk "a" "uint256" false [] "", .mk "b" "address" false [] ""] "") =
      "(" ++ String.intercalate ","
        ([ABIInput.mk "a" "uint256" false [] "",
          ABIInput.mk "b" "address" false [] ""].map ResolveType) ++ ")" ++
        (baseAndSuffix "tuple").2 :=
  ⟨claim5_resolve_type_canonical.2.2.1 (.mk "x" "uint256[]" false [] "") (by decide),
   claim5_resolve_type_canonical.2.2.2.1 (.mk "p" "tuple" false
     [.mk "a" "uint256" false [] "", .mk "b" "address" false [] ""] "") (by decide)⟩

/-- A log with a single topic, used to instantiate the storage claims. -/
def oneTopicLog : Log :=
  { txHash := List.replicate 32 1
    txIndex := 2
    blockNumber := 7
    blockHash := List.replicate 32 2
    index := 3
    removed := false
    address := List.replicate 20 0
    topics := [List.replicate 32 0]
    data := [171] }

/-- C7: a log whose first topic matches no loaded event definition is stored
with empty decodedParams, null name and signature, and the raw content
preserved: the signature column carries topic 0 in hex, the other topics
their hex strings in order, rawData the hex of the data blob. -/
theorem claim7_unknown_event_preserves_raw
    (unpack : List Argument → List Nat → Option (List GoValue))
    (sigs : List (String × EventSignatureInfo)) (events : List BlockchainEvent)
    (lg : Log) (t0 : List Nat) (rest : List (List Nat))
    (htop : lg.topics = t0 :: rest) (hmiss : lookupSig sigs lg = none) :
    storeEvent unpack events lg (lookupSig sigs lg) false =
      .stored (upsertEvent events (buildEvent unpack lg none)) ∧
    (buildEvent unpack lg none).decodedParams = [] ∧
    (buildEvent unpack lg none).eventName = none ∧
    (buildEvent unpack lg none).eventFullSignature = none ∧
    (buildEvent unpack lg none).eventSignature = topicHex t0 ∧
    (buildEvent unpack lg none).otherTopics = rest.map topicHex ∧
    (buildEvent unpack lg none).rawData = bytesHex lg.data := by
  rw [hmiss]
  refine ⟨?_, rfl, rfl, rfl, ?_, ?_, rfl⟩
  · unfold storeEvent
    rw [if_neg (by rw [htop]; simp)]
    rfl
  · simp [buildEvent, htop]
  · simp [buildEvent, htop]

/-- C7 witness: an unmatched single-topic log against an empty signature
table. -/
theorem claim7_unknown_event_preserves_raw_witness :
    storeEvent unpackNone [] oneTopicLog (lookupSig [] oneTopicLog) false =
      .stored (upsertEvent [] (buildEvent unpackNone oneTopicLog none)) ∧
    (buildEvent unpackNone oneTopicLog none).decodedParams = [] ∧
    (buildEvent unpackNone oneTopicLog none).eventName = none ∧
    (buildEvent unpackNone oneTopicLog none).eventFullSignature = none ∧
    (buildEvent unpackNone oneTopicLog none).eventSignature =
      topicHex (List.replicate 32 0) ∧
    (buildEvent unpackNone oneTopicLog none).otherTopics =
      ([] : List (List Nat)).map topicHex ∧
    (buildEvent unpackNone oneTopicLog none).rawData = bytesHex oneTopicLog.data :=
  claim7_unknown_event_preserves_raw unpackNone [] [] oneTopicLog
    (List.replicate 32 0) [] (by rfl) (by rfl)

/-- C4: upserting the decode of the same log twice — under the unique-index
invariant that at most one row holds its key — leaves exactly one row for the
(txHash, logIndex) key, and that rows non-key fields are the output of the
second decode: the upsert inserts on a new key and overwrites every non-key
column on conflict. -/
theorem claim4_double_store_idempotent_last_write_wins
    (unpack : List Argument → List Nat → Option (List GoValue))
    (events : List BlockchainEvent) (lg : Log)
    (sig1 sig2 : Option EventSignatureInfo)
    (htop : lg.topics ≠ [])
    (huniq : countKey events (topicHex lg.txHash) lg.index ≤ 1) :
    storeEvent unpack events lg sig1 false =
      .stored (upsertEvent events (buildEvent unpack lg sig1)) ∧
    storeEvent unpack (upsertEvent events (buildEvent unpack lg sig1)) lg sig2
      false =
      .stored (upsertEvent (upsertEvent events (buildEvent unpack lg sig1))
        (buildEvent unpack lg sig2)) ∧
    countKey (upsertEvent (upsertEvent events (buildEvent unpack lg sig1))
        (buildEvent unpack lg sig2)) (topicHex lg.txHash) lg.index = 1 ∧
    findByKey (upsertEvent (upsertEvent events (buildEvent unpack lg sig1))
        (buildEvent unpack lg sig2)) (topicHex lg.txHash) lg.index =
      some (buildEvent unpack lg sig2) := by
  have hlen : 0 < lg.topics.length := List.length_pos.mpr htop
  have hstore : ∀ (evs : List BlockchainEvent) (sig : Option EventSignatureInfo),
      storeEvent unpack evs lg sig false =
        .stored (upsertEvent evs (buildEvent unpack lg sig)) := by
    intro evs sig
    unfold storeEvent
    rw [if_neg (by omega)]
    rfl
  have hcount1 : countKey (upsertEvent events (buildEvent unpack lg sig1))
      (topicHex lg.txHash) lg.index = 1 :=
    upsert_countKey events (buildEvent unpack lg sig1) huniq
  refine ⟨hstore events sig1, hstore _ sig2, ?_, ?_⟩
  · exact upsert_countKey _ (buildEvent unpack lg sig2) (le_of_eq hcount1)
  · exact upsert_findByKey _ (buildEvent unpack lg sig2)

/-- C4 witness: the same single-topic log stored twice into an empty table
holds exactly one row, equal to the second build. -/
theorem claim4_double_store_idempotent_last_write_wins_witness :
    countKey (upsertEvent (upsertEvent [] (buildEvent unpackNone oneTopicLog none))
        (buildEvent unpackNone oneTopicLog none)) (topicHex oneTopicLog.txHash)
      oneTopicLog.index = 1 ∧
    findByKey (upsertEvent (upsertEvent [] (buildEvent unpackNone oneTopicLog none))
        (buildEvent unpackNone oneTopicLog none)) (topicHex oneTopicLog.txHash)
      oneTopicLog.index = some (buildEvent unpackNone oneTopicLog none) :=
  ⟨(claim4_double_store_idempotent_last_write_wins unpackNone [] oneTopicLog
      none none (by decide) (by decide)).2.2.1,
   (claim4_double_store_idempotent_last_write_wins unpackNone [] oneTopicLog
      none none (by decide) (by decide)).2.2.2⟩

/-- A 32-byte topic whose leading bytes are printable ASCII ("hi" padded with
zeros), separating the raw-string reading from any hex reading. -/
def stringTopic : List Nat := 104 :: 105 :: List.replicate 30 0

/-- C6 amended: the k-th declared indexed input (all input names distinct,
the input's original metadata declaring no components) is decoded from topic
k+1 by its declared primitive type, per the table indexedDecodeSpec: address
as checksummed hex of the last 20 bytes, signed and unsigned integers as the
decimal string of the unsigned big-endian parse, boolean as true iff the low
byte is 1, string as the raw bytes reinterpreted as a string, bytes and
fixed-bytes as plain hex of the 32 bytes, and every other type as 0x-prefixed
hex of the raw bytes. -/
theorem claim6_indexed_topic_decode_amended (inputs : List Argument)
    (origs : List ABIInput) (topics : List (List Nat)) (k : Nat)
    (a : Argument) (o : ABIInput) (t : List Nat)
    (ha : inputs[k]? = some a) (ho : origs[k]? = some o)
    (ht : topics[k + 1]? = some t)
    (hnd : (inputs.map Argument.name).Nodup)
    (hcomp : o.components = []) :
    lookupParam (decodeIndexedLoop inputs origs (topics.drop 1) []) a.name =
      some (indexedDecodeSpec a.typeT t) := by
  have hts : (topics.drop 1)[k]? = some t := by
    cases topics with
    | nil => simp at ht
    | cons t0 rest => simpa using ht
  rw [decodeIndexedLoop_lookup_at k inputs origs (topics.drop 1) [] a o t
    ha ho hts hnd]
  cases a.typeT <;>
    simp [decodeIndexedTopicValue, indexedDecodeSpec,
      decodeParameterWithComponents, hcomp] <;>
    rfl

/-- C6 witness: a single indexed address input decodes topic 1 to the
checksummed hex form. -/
theorem claim6_indexed_topic_decode_amended_witness :
    lookupParam (decodeIndexedLoop
        [{ name := "v", typeT := .addressTy, indexed := true }]
        [ABIInput.mk "v" "address" true [] ""]
        (([List.replicate 32 0, stringTopic] : List (List Nat)).drop 1) []) "v" =
      some (indexedDecodeSpec .addressTy stringTopic) :=
  claim6_indexed_topic_decode_amended
    [{ name := "v", typeT := .addressTy, indexed := true }]
    [ABIInput.mk "v" "address" true [] ""]
    [List.replicate 32 0, stringTopic] 0
    { name := "v", typeT := .addressTy, indexed := true }
    (ABIInput.mk "v" "address" true [] "") stringTopic
    (by rfl) (by rfl) (by rfl) (by simp) (by rfl)

/-- C6 as stated is refuted: a string-typed indexed input stores the raw
topic bytes reinterpreted as a string, which differs from the hex encoding of
the raw 32 topic bytes the claim prescribes (with or without a 0x in
front). -/
theorem claim6_counterexample_string_is_not_hex :
    lookupParam (decodeIndexedLoop
        [{ name := "s", typeT := .stringTy, indexed := true }]
        [ABIInput.mk "s" "string" true [] ""]
        (([List.replicate 32 0, stringTopic] : List (List Nat)).drop 1) []) "s" =
      some (.str (goStringOfBytes stringTopic)) ∧
    goStringOfBytes stringTopic ≠ bytesHex stringTopic ∧
    goStringOfBytes stringTopic ≠ "0x" ++ bytesHex stringTopic := by
  refine ⟨?_, by decide, by decide⟩
  rw [show (([List.replicate 32 0, stringTopic] : List (List Nat)).drop 1) =
    [stringTopic] from rfl]
  rw [decodeIndexedLoop_cons_cons, decodeIndexedLoop_nil,
    lookupParam_mapInsert_self]
  simp [decodeIndexedTopicValue, decodeParameterWithComponents]

end EventFetcher
